import Mathlib

/-!
Shallow embedding of the manual k-means loop of
`src/notebooks/Day2_4-Clustering.ipynb` (code cells 13, 15, 18 and 21).

Modelling conventions.

* The notebook clusters 2-D data held in two coordinate arrays `x`, `y` of
  equal length, repeatedly zipped into pairs; a point is a pair of rationals.
* `cdist` computes Euclidean distances (square root of the sum of squared
  coordinate differences).  The square root is strictly monotone on
  nonnegative arguments, so the row-wise `argmin`, every comparison and every
  equality of distances coincide with those of the squared distances.  The
  embedding therefore stores squared distances, which keeps every value
  rational.
* NumPy's `argmin` returns the first (lowest) index attaining the minimum;
  `argminIdx` below has exactly that semantics.
* `x[labels==i].mean()` on an empty selection is NumPy's mean of an empty
  slice: a 0/0 that yields NaN.  The embedding returns `none` for the mean of
  an empty member list and propagates `none` through the rest of the run,
  marking the iteration at which the source first produces an undefined (NaN)
  value.  Rational division would silently return `0` there and would be an
  unfaithful model.
-/

/-- A 2-D data point, one entry of `list(zip(x, y))` in the notebook. -/
abbrev Point : Type := ℚ × ℚ

/-- Squared Euclidean distance between two points (the notebook's `cdist`
entry, squared; comparisons and argmins are unaffected by the monotone square
root). -/
def sqdist (a b : Point) : ℚ := (a.1 - b.1) ^ 2 + (a.2 - b.2) ^ 2

/-- Minimum value of a list of rationals (`0` for `[]`; only used on nonempty
lists). -/
def listMin : List ℚ → ℚ
  | [] => 0
  | [a] => a
  | a :: b :: rest => min a (listMin (b :: rest))

/-- Index of the first occurrence of the minimum of a list: the semantics of
NumPy `argmin` along one axis ("in case of ties the first occurrence is
returned").  Returns `0` on `[]`, which never arises in the notebook. -/
def argminIdx : List ℚ → Nat
  | [] => 0
  | [_] => 0
  | a :: b :: rest => if a ≤ listMin (b :: rest) then 0 else argminIdx (b :: rest) + 1

/-- One row of the distance matrix: squared distances from centroid `c` to
every point. -/
def distanceRow (ps : List Point) (c : Point) : List ℚ := ps.map (fun p => sqdist c p)

/-- Cell 13, `distances = cdist(centroids, list(zip(x,y)))`: the matrix whose
row `j` lists the (squared) distances from centroid `j` to each point. -/
def sqDistances (cs ps : List Point) : List (List ℚ) := cs.map (distanceRow ps)

/-- Column `i` of a distance matrix: the distances from every centroid to
point `i`. -/
def matCol (d : List (List ℚ)) (i : Nat) : List ℚ := d.map (fun row => row.getD i 0)

/-- Cell 15, `labels = distances.argmin(axis=0)`: for each column (point) the
index of the row (centroid) with minimal distance, ties to the lowest index.
The number of columns is the length of the first row, as in the NumPy array. -/
def argminAxis0 (d : List (List ℚ)) : List Nat :=
  (List.range (d.getD 0 []).length).map (fun i => argminIdx (matCol d i))

/-- The assignment step, cells 13 and 15 composed: `labels` as a function of
the current centroids and the fixed point set. -/
def labelsOf (cs ps : List Point) : List Nat := argminAxis0 (sqDistances cs ps)

/-- The points currently assigned to centroid `j`: the notebook selects
`x[labels==i]` and `y[labels==i]` with the same boolean mask, which is the
same as filtering the zipped point list by its label. -/
def membersOf (ps : List Point) (labels : List Nat) (j : Nat) : List Point :=
  ((labels.zip ps).filter (fun lp => lp.1 == j)).map (fun lp => lp.2)

/-- Coordinate-wise arithmetic mean of a list of points; `none` for the empty
list, where the source's `mean()` is NaN (mean of empty slice, a 0/0). -/
def meanOpt : List Point → Option Point
  | [] => none
  | ms@(_ :: _) =>
    some ((ms.map Prod.fst).sum / (ms.length : ℚ), (ms.map Prod.snd).sum / (ms.length : ℚ))

/-- Cells 18 and 21, the update comprehension
`[(x[labels==i].mean(), y[labels==i].mean()) for i in range(len(centroids))]`;
`none` (the NaN of an empty cluster) propagates to the whole list. -/
def newCentroidsOpt (ps : List Point) (labels : List Nat) : List Nat → Option (List Point)
  | [] => some []
  | j :: rest =>
    match meanOpt (membersOf ps labels j), newCentroidsOpt ps labels rest with
    | some c, some cs => some (c :: cs)
    | _, _ => none

/-- The body of the cell-21 loop: recompute `distances`, then `labels`, then
the centroid list, exactly as the three statements inside
`for _ in range(iterations):`. -/
def loopBody (ps cs : List Point) : Option (List Nat × List Point) :=
  let distances := cs.map (fun c => ps.map (fun p => sqdist c p))
  let labels := (List.range (distances.getD 0 []).length).map
    (fun i => argminIdx (distances.map (fun row => row.getD i 0)))
  match newCentroidsOpt ps labels (List.range cs.length) with
  | some cs2 => some (labels, cs2)
  | none => none

/-- State of the cell-21 loop after `t` executions of its body.  State `0`
holds the initial centroids together with a placeholder empty label list (the
loop recomputes `labels` before first using it, so the placeholder is never
read). -/
def loopTrace (ps cs0 : List Point) : Nat → Option (List Nat × List Point)
  | 0 => some ([], cs0)
  | t + 1 => (loopTrace ps cs0 t).bind (fun s => loopBody ps s.2)

/-- Cell 21's `for _ in range(iterations):` as a fold of the body over
`range iterations`. -/
def runLoop (ps cs0 : List Point) (n : Nat) : Option (List Nat × List Point) :=
  (List.range n).foldl (fun s _ => s.bind (fun st => loopBody ps st.2)) (some ([], cs0))

/-- The same fold, instrumented with a counter that increments once per
execution of the loop body; the source loop has no `break` or convergence
test, so the body runs once per element of `range iterations`. -/
def runLoopCounted (ps cs0 : List Point) (n : Nat) :
    Option (List Nat × List Point) × Nat :=
  (List.range n).foldl
    (fun sc _ => (sc.1.bind (fun st => loopBody ps st.2), sc.2 + 1)) (some ([], cs0), 0)

/-- Number of assignment/update iterations the loop actually performs. -/
def iterationsPerformed (ps cs0 : List Point) (n : Nat) : Nat :=
  (runLoopCounted ps cs0 n).2

/-- The distortion of a labelling against a centroid list: the sum over all
points of the squared distance from the point to its assigned centroid. -/
def distortion (ps : List Point) (labels : List Nat) (cs : List Point) : ℚ :=
  ((labels.zip ps).map (fun lp => sqdist lp.2 (cs.getD lp.1 (0, 0)))).sum

/-- The data bound by the setup lines of cell 21
(`centroids = new_centroids; iterations = 20`) together with the fixed point
set. -/
structure LoopConfig where
  points : List Point
  centroids : List Point
  iterations : Nat

/-- The setup of cell 21: plain variable binding.  The source performs no
validation of the cluster count, the iteration budget or the dimensionality
and has no failure branch, so the `Except`-typed result (present only to make
claims about construction failure statable) is always `ok`. -/
def notebookSetup (ps cs : List Point) (n : Nat) : Except Unit LoopConfig :=
  Except.ok ⟨ps, cs, n⟩

/-- Label of a single point: index of the nearest centroid.  Proof-side form
of one column of the argmin of cell 15; `labelsOf` is pointwise equal to it. -/
def assignPt (cs : List Point) (p : Point) : Nat :=
  argminIdx (cs.map (fun c => sqdist c p))

/-- The four-point scenario of the specification: two tight pairs, two
well-separated initial centroids. -/
def scenPts : List Point := [(0, 0), (0, 1), (10, 0), (10, 1)]

/-- Initial centroids of the scenario. -/
def scenCs : List Point := [(0, 0), (10, 0)]

/-- The minimum of a nonempty list bounds every element. -/
lemma listMin_le {x : ℚ} : ∀ (l : List ℚ), x ∈ l → listMin l ≤ x := by
  intro l
  induction l with
  | nil => intro h; cases h
  | cons a tl ih =>
    cases tl with
    | nil =>
      intro hx
      rcases List.mem_singleton.mp hx with rfl
      simp [listMin]
    | cons b tl2 =>
      intro hx
      rcases List.mem_cons.mp hx with rfl | hmem
      · simp [listMin]
      · simpa [listMin] using le_trans (min_le_right a (listMin (b :: tl2))) (ih hmem)

/-- The argmin index of a nonempty list is in range. -/
lemma argminIdx_lt_length : ∀ (l : List ℚ), l ≠ [] → argminIdx l < l.length := by
  intro l
  induction l with
  | nil => intro h; exact absurd rfl h
  | cons a tl ih =>
    intro _
    cases tl with
    | nil => simp [argminIdx]
    | cons b tl2 =>
      by_cases hle : a ≤ listMin (b :: tl2)
      · simp [argminIdx, hle]
      · have h1 := ih (by simp)
        simp only [argminIdx, hle, if_false, List.length_cons]
        simp only [List.length_cons] at h1
        omega

/-- The entry at the argmin index is the minimum value. -/
lemma getD_argminIdx : ∀ (l : List ℚ), l ≠ [] → l.getD (argminIdx l) 0 = listMin l := by
  intro l
  induction l with
  | nil => intro h; exact absurd rfl h
  | cons a tl ih =>
    intro _
    cases tl with
    | nil => simp [argminIdx, listMin]
    | cons b tl2 =>
      by_cases hle : a ≤ listMin (b :: tl2)
      · simp [argminIdx, listMin, hle, min_eq_left hle]
      · have hlt : listMin (b :: tl2) < a := lt_of_not_le hle
        simp only [argminIdx, hle, if_false, List.getD_cons_succ]
        rw [ih (by simp)]
        simp [listMin, min_eq_right (le_of_lt hlt)]

/-- Among all indices attaining the minimum, the argmin index is the lowest:
the first-occurrence tie-break of NumPy argmin. -/
lemma argminIdx_le : ∀ (l : List ℚ) (i : Nat), i < l.length →
    l.getD i 0 = listMin l → argminIdx l ≤ i := by
  intro l
  induction l with
  | nil => intro i hi; simp at hi
  | cons a tl ih =>
    intro i hi hval
    cases tl with
    | nil => simp [argminIdx]
    | cons b tl2 =>
      by_cases hle : a ≤ listMin (b :: tl2)
      · simp [argminIdx, hle]
      · have hlt : listMin (b :: tl2) < a := lt_of_not_le hle
        have hminl : listMin (a :: b :: tl2) = listMin (b :: tl2) := by
          simp [listMin, min_eq_right (le_of_lt hlt)]
        cases i with
        | zero =>
          rw [hminl] at hval
          simp only [List.getD_cons_zero] at hval
          exact absurd hval (ne_of_gt hlt)
        | succ k =>
          rw [hminl] at hval
          simp only [List.getD_cons_succ] at hval
          have hk : k < (b :: tl2).length := by
            simpa [Nat.succ_lt_succ_iff] using hi
          have := ih k hk hval
          simp only [argminIdx, hle, if_false]
          omega

/-- Getting from a mapped list inside the bounds ignores the default. -/
lemma getD_map_of_lt {α β : Type} (l : List α) (f : α → β) (i : Nat)
    (h : i < l.length) (d : β) (d0 : α) : (l.map f).getD i d = f (l.getD i d0) := by
  rw [List.getD_eq_getElem (l.map f) d (by simpa using h), List.getD_eq_getElem l d0 h,
    List.getElem_map]

/-- In-range entries of `List.range`. -/
lemma range_getD {K j : Nat} (h : j < K) : (List.range K).getD j 0 = j := by
  rw [List.getD_eq_getElem (List.range K) 0 (by simpa using h)]
  simp

/-- Mapping an index-based read over `range` of the length recovers a plain map. -/
lemma map_range_getD {α β : Type} (d : α) (F : α → β) :
    ∀ (l : List α), (List.range l.length).map (fun i => F (l.getD i d)) = l.map F := by
  intro l
  induction l with
  | nil => simp
  | cons a tl ih =>
    rw [List.length_cons, List.range_succ_eq_map, List.map_cons, List.map_map]
    simp only [Function.comp_def, Nat.succ_eq_add_one, List.getD_cons_zero, List.getD_cons_succ]
    rw [ih]
    rfl

/-- Column `i` of the cell-13 matrix lists the squared distances from each
centroid to point `i`. -/
lemma matCol_sqDistances (cs ps : List Point) (i : Nat) (hi : i < ps.length) :
    matCol (sqDistances cs ps) i = cs.map (fun c => sqdist c (ps.getD i (0, 0))) := by
  unfold matCol sqDistances
  rw [List.map_map]
  apply List.map_congr_left
  intro c _
  simp only [Function.comp, distanceRow]
  exact getD_map_of_lt ps (fun p => sqdist c p) i hi 0 (0, 0)

/-- With at least one centroid, the cell-15 labels are exactly the per-point
nearest-centroid indices. -/
lemma labelsOf_eq (cs ps : List Point) (h : cs ≠ []) :
    labelsOf cs ps = ps.map (fun p => assignPt cs p) := by
  have hlen : ((sqDistances cs ps).getD 0 []).length = ps.length := by
    obtain ⟨c0, cs', rfl⟩ := List.exists_cons_of_ne_nil h
    simp [sqDistances, distanceRow]
  unfold labelsOf argminAxis0
  rw [hlen, ← map_range_getD (0, 0) (fun p => assignPt cs p) ps]
  apply List.map_congr_left
  intro i hi
  rw [matCol_sqDistances cs ps i (List.mem_range.mp hi)]
  rfl

/-- The update comprehension yields one centroid per index. -/
lemma newCentroidsOpt_length (ps : List Point) (labels : List Nat) :
    ∀ (ks : List Nat) (cs2 : List Point), newCentroidsOpt ps labels ks = some cs2 →
      cs2.length = ks.length := by
  intro ks
  induction ks with
  | nil =>
    intro cs2 h
    simp only [newCentroidsOpt, Option.some.injEq] at h
    simp [← h]
  | cons j rest ih =>
    intro cs2 h
    simp only [newCentroidsOpt] at h
    cases hm : meanOpt (membersOf ps labels j) with
    | none => rw [hm] at h; cases h
    | some c =>
      cases hr : newCentroidsOpt ps labels rest with
      | none => rw [hm, hr] at h; cases h
      | some cst =>
        rw [hm, hr] at h
        simp only [Option.some.injEq] at h
        rw [← h]
        simp [ih cst hr]

/-- Entry `i` of the update output is the mean of the members of cluster
`ks[i]`; in particular that member list is nonempty. -/
lemma newCentroidsOpt_getD (ps : List Point) (labels : List Nat) :
    ∀ (ks : List Nat) (cs2 : List Point), newCentroidsOpt ps labels ks = some cs2 →
      ∀ i, i < ks.length →
        meanOpt (membersOf ps labels (ks.getD i 0)) = some (cs2.getD i (0, 0)) := by
  intro ks
  induction ks with
  | nil => intro cs2 _ i hi; simp at hi
  | cons j rest ih =>
    intro cs2 h i hi
    simp only [newCentroidsOpt] at h
    cases hm : meanOpt (membersOf ps labels j) with
    | none => rw [hm] at h; cases h
    | some c =>
      cases hr : newCentroidsOpt ps labels rest with
      | none => rw [hm, hr] at h; cases h
      | some cst =>
        rw [hm, hr] at h
        simp only [Option.some.injEq] at h
        rw [← h]
        cases i with
        | zero => simpa using hm
        | succ k =>
          simp only [List.getD_cons_succ]
          exact ih cst hr k (by simpa [Nat.succ_lt_succ_iff] using hi)

/-- A defined mean comes from a nonempty member list. -/
lemma meanOpt_some_ne_nil (ms : List Point) (m : Point) (h : meanOpt ms = some m) :
    ms ≠ [] := by
  intro hnil
  rw [hnil] at h
  cases h

/-- The loop body of cell 21 is exactly the composition of the standalone
cells: the cell-13/15 labels followed by the cell-18 centroid update. -/
lemma loopBody_eq_cells (ps cs : List Point) :
    loopBody ps cs = Option.map (fun cs2 => (labelsOf cs ps, cs2))
      (newCentroidsOpt ps (labelsOf cs ps) (List.range cs.length)) := by
  show (match newCentroidsOpt ps (labelsOf cs ps) (List.range cs.length) with
    | some cs2 => some (labelsOf cs ps, cs2)
    | none => none) = _
  cases newCentroidsOpt ps (labelsOf cs ps) (List.range cs.length) <;> rfl

/-- Characterization of a successful loop-body step. -/
lemma loopBody_some_iff (ps cs : List Point) (l : List Nat) (c : List Point) :
    loopBody ps cs = some (l, c) ↔
      l = labelsOf cs ps ∧
        newCentroidsOpt ps (labelsOf cs ps) (List.range cs.length) = some c := by
  rw [loopBody_eq_cells]
  cases h : newCentroidsOpt ps (labelsOf cs ps) (List.range cs.length) with
  | none =>
    constructor
    · intro h2; cases h2
    · rintro ⟨-, h2⟩; cases h2
  | some cst =>
    simp only [Option.map_some', Option.some.injEq, Prod.mk.injEq]
    constructor
    · rintro ⟨h1, h2⟩; exact ⟨h1.symm, h2⟩
    · rintro ⟨h1, h2⟩; exact ⟨h1.symm, h2⟩

/-- Unfolding one step of the iteration trace. -/
lemma loopTrace_succ (ps cs0 : List Point) (t : Nat) :
    loopTrace ps cs0 (t + 1) = (loopTrace ps cs0 t).bind (fun s => loopBody ps s.2) := rfl

/-- A defined state at `t+1` comes from a defined state at `t` through one
body step. -/
lemma loopTrace_succ_some (ps cs0 : List Point) (t : Nat) (s2 : List Nat × List Point) :
    loopTrace ps cs0 (t + 1) = some s2 ↔
      ∃ s, loopTrace ps cs0 t = some s ∧ loopBody ps s.2 = some s2 := by
  rw [loopTrace_succ]
  exact Option.bind_eq_some

/-- The centroid list never changes length along the trace. -/
lemma loopTrace_centroid_length (ps cs0 : List Point) :
    ∀ (t : Nat) (s : List Nat × List Point), loopTrace ps cs0 t = some s →
      s.2.length = cs0.length := by
  intro t
  induction t with
  | zero =>
    intro s h
    simp only [loopTrace, Option.some.injEq] at h
    rw [← h]
  | succ t ih =>
    intro s h
    obtain ⟨s0, h0, hb⟩ := (loopTrace_succ_some ps cs0 t s).mp h
    obtain ⟨l, c⟩ := s
    obtain ⟨-, hnc⟩ := (loopBody_some_iff ps s0.2 l c).mp hb
    have := newCentroidsOpt_length ps (labelsOf s0.2 ps) (List.range s0.2.length) c hnc
    simpa [this] using ih s0 h0

/-- Shape invariant of every state the loop actually reaches after at least
one iteration: the labels form a total assignment of the M points to in-range
centroid indices, the centroid count stays at its initial value K, and the
centroid list is the update-comprehension output of the labels. -/
lemma loopTrace_some_shape (ps cs0 : List Point) (h0 : cs0 ≠ []) (t : Nat)
    (l : List Nat) (c : List Point) (h : loopTrace ps cs0 (t + 1) = some (l, c)) :
    l.length = ps.length ∧ (∀ x ∈ l, x < cs0.length) ∧ c.length = cs0.length ∧
      newCentroidsOpt ps l (List.range cs0.length) = some c := by
  obtain ⟨s0, h0t, hb⟩ := (loopTrace_succ_some ps cs0 t (l, c)).mp h
  have hlen0 : s0.2.length = cs0.length := loopTrace_centroid_length ps cs0 t s0 h0t
  have hne : s0.2 ≠ [] := by
    intro hnil
    rw [hnil] at hlen0
    exact h0 (List.length_eq_zero.mp hlen0.symm)
  obtain ⟨hl, hnc⟩ := (loopBody_some_iff ps s0.2 l c).mp hb
  have hlab : l = ps.map (fun p => assignPt s0.2 p) := hl.trans (labelsOf_eq s0.2 ps hne)
  refine ⟨?_, ?_, ?_, ?_⟩
  · rw [hlab, List.length_map]
  · intro x hx
    rw [hlab] at hx
    obtain ⟨p, -, rfl⟩ := List.mem_map.mp hx
    have hmapne : s0.2.map (fun cc => sqdist cc p) ≠ [] := by
      simpa [List.map_eq_nil_iff] using hne
    have := argminIdx_lt_length (s0.2.map (fun cc => sqdist cc p)) hmapne
    rw [List.length_map] at this
    rw [← hlen0]
    exact this
  · have := newCentroidsOpt_length ps (labelsOf s0.2 ps) (List.range s0.2.length) c hnc
    simpa [this] using hlen0
  · rw [← hl, hlen0] at hnc
    exact hnc

/-- The cell-21 `for` loop is the `t = iterations` point of the trace. -/
lemma runLoop_eq_loopTrace (ps cs0 : List Point) :
    ∀ (n : Nat), runLoop ps cs0 n = loopTrace ps cs0 n := by
  intro n
  induction n with
  | zero => rfl
  | succ n ih =>
    have hstep : runLoop ps cs0 (n + 1)
        = (runLoop ps cs0 n).bind (fun st => loopBody ps st.2) := by
      unfold runLoop
      rw [List.range_succ, List.foldl_append]
      rfl
    rw [hstep, ih]
    rfl

/-- The instrumented fold computes the trace endpoint together with the exact
number of body executions, which is the iteration budget. -/
lemma runLoopCounted_eq (ps cs0 : List Point) :
    ∀ (n : Nat), runLoopCounted ps cs0 n = (loopTrace ps cs0 n, n) := by
  intro n
  induction n with
  | zero => rfl
  | succ n ih =>
    have hstep : runLoopCounted ps cs0 (n + 1)
        = ((runLoopCounted ps cs0 n).1.bind (fun st => loopBody ps st.2),
            (runLoopCounted ps cs0 n).2 + 1) := by
      unfold runLoopCounted
      rw [List.range_succ, List.foldl_append]
      rfl
    rw [hstep, ih]
    rfl

/-- The loop body runs exactly `iterations` times. -/
lemma iterationsPerformed_eq (ps cs0 : List Point) (n : Nat) :
    iterationsPerformed ps cs0 n = n := by
  unfold iterationsPerformed
  rw [runLoopCounted_eq]

/-- Squared distance is symmetric. -/
lemma sqdist_comm (a b : Point) : sqdist a b = sqdist b a := by
  unfold sqdist
  ring

/-- Algebraic identity: moving the center of a sum of squared deviations. -/
lemma sum_sq_shift (qs : List ℚ) (c m : ℚ) :
    (qs.map (fun x => (x - c) ^ 2)).sum
      = (qs.map (fun x => (x - m) ^ 2)).sum
        + 2 * (m - c) * (qs.sum - qs.length * m) + qs.length * (m - c) ^ 2 := by
  induction qs with
  | nil => simp
  | cons a tl ih =>
    simp only [List.map_cons, List.sum_cons, List.length_cons]
    rw [ih]
    push_cast
    ring

/-- The arithmetic mean minimizes the sum of squared deviations (one
coordinate). -/
lemma mean_min_1d (qs : List ℚ) (h : qs ≠ []) (c : ℚ) :
    (qs.map (fun x => (x - qs.sum / qs.length) ^ 2)).sum
      ≤ (qs.map (fun x => (x - c) ^ 2)).sum := by
  have hl0 : qs.length ≠ 0 := by simpa [List.length_eq_zero] using h
  have hn : (qs.length : ℚ) ≠ 0 := Nat.cast_ne_zero.mpr hl0
  rw [sum_sq_shift qs c (qs.sum / qs.length)]
  have hz : qs.sum - qs.length * (qs.sum / qs.length) = 0 := by field_simp
  rw [hz]
  have hsq : 0 ≤ (qs.length : ℚ) * (qs.sum / qs.length - c) ^ 2 := by positivity
  linarith

/-- Sum of squared distances to a fixed point, split into coordinates. -/
lemma sumSq_split (ms : List Point) (c : Point) :
    (ms.map (fun p => sqdist p c)).sum
      = ((ms.map Prod.fst).map (fun x => (x - c.1) ^ 2)).sum
        + ((ms.map Prod.snd).map (fun y => (y - c.2) ^ 2)).sum := by
  induction ms with
  | nil => simp
  | cons a tl ih =>
    simp only [List.map_cons, List.sum_cons]
    rw [ih]
    simp only [sqdist]
    ring

/-- The coordinate-wise mean point minimizes the summed squared distance to
the points it averages. -/
lemma meanOpt_min (ms : List Point) (m : Point) (hm : meanOpt ms = some m) (c : Point) :
    (ms.map (fun p => sqdist p m)).sum ≤ (ms.map (fun p => sqdist p c)).sum := by
  have hne : ms ≠ [] := meanOpt_some_ne_nil ms m hm
  have hm12 : m.1 = (ms.map Prod.fst).sum / ms.length ∧
      m.2 = (ms.map Prod.snd).sum / ms.length := by
    cases ms with
    | nil => exact absurd rfl hne
    | cons a tl =>
      simp only [meanOpt, Option.some.injEq] at hm
      rw [← hm]
      exact ⟨rfl, rfl⟩
  have hxne : ms.map Prod.fst ≠ [] := by simpa [List.map_eq_nil_iff] using hne
  have hyne : ms.map Prod.snd ≠ [] := by simpa [List.map_eq_nil_iff] using hne
  have hx := mean_min_1d (ms.map Prod.fst) hxne c.1
  have hy := mean_min_1d (ms.map Prod.snd) hyne c.2
  rw [List.length_map] at hx hy
  rw [sumSq_split ms m, sumSq_split ms c, hm12.1, hm12.2]
  exact add_le_add hx hy

/-- Splitting a sum over labelled points into per-cluster sums. -/
lemma sum_partition (K : Nat) (g : Nat → Point → ℚ) :
    ∀ (pairs : List (Nat × Point)), (∀ lp ∈ pairs, lp.1 < K) →
      (pairs.map (fun lp => g lp.1 lp.2)).sum
        = ∑ j ∈ Finset.range K,
            ((pairs.filter (fun lp => lp.1 == j)).map (fun lp => g j lp.2)).sum := by
  intro pairs
  induction pairs with
  | nil => simp
  | cons hd tl ih =>
    intro hmem
    obtain ⟨l0, p0⟩ := hd
    have hl0 : l0 < K := by simpa using hmem (l0, p0) (by simp)
    simp only [List.map_cons, List.sum_cons]
    rw [ih (fun q hq => hmem q (List.mem_cons_of_mem _ hq))]
    have hterm : ∀ j ∈ Finset.range K,
        ((((l0, p0) :: tl).filter (fun lp => lp.1 == j)).map (fun lp => g j lp.2)).sum
          = (if l0 = j then g j p0 else 0)
            + ((tl.filter (fun lp => lp.1 == j)).map (fun lp => g j lp.2)).sum := by
      intro j _
      by_cases hj : l0 = j
      · simp [List.filter_cons, hj]
      · simp [List.filter_cons, hj]
    rw [Finset.sum_congr rfl hterm, Finset.sum_add_distrib]
    have hpick : (∑ j ∈ Finset.range K, if l0 = j then g j p0 else 0) = g l0 p0 := by
      rw [Finset.sum_ite_eq (Finset.range K) l0 (fun j => g j p0)]
      exact if_pos (Finset.mem_range.mpr hl0)
    rw [hpick]

/-- Distortion splits into per-cluster sums of squared distances to the
cluster's centroid. -/
lemma distortion_partition (ps : List Point) (labels : List Nat) (cs : List Point)
    (h : ∀ x ∈ labels, x < cs.length) :
    distortion ps labels cs
      = ∑ j ∈ Finset.range cs.length,
          ((membersOf ps labels j).map (fun p => sqdist p (cs.getD j (0, 0)))).sum := by
  unfold distortion
  rw [sum_partition cs.length (fun j p => sqdist p (cs.getD j (0, 0))) (labels.zip ps)
    (fun lp hlp => h lp.1 (List.of_mem_zip hlp).1)]
  apply Finset.sum_congr rfl
  intro j _
  unfold membersOf
  rw [List.map_map]
  rfl

/-- Each point's assigned centroid is at minimal squared distance among all
centroids. -/
lemma assignPt_min (cs : List Point) (p : Point) (h : cs ≠ []) (k : Nat)
    (hk : k < cs.length) :
    sqdist (cs.getD (assignPt cs p) (0, 0)) p ≤ sqdist (cs.getD k (0, 0)) p := by
  have hmapne : cs.map (fun c => sqdist c p) ≠ [] := by
    simpa [List.map_eq_nil_iff] using h
  have hlt := argminIdx_lt_length (cs.map (fun c => sqdist c p)) hmapne
  rw [List.length_map] at hlt
  have h1 := getD_argminIdx (cs.map (fun c => sqdist c p)) hmapne
  rw [getD_map_of_lt cs (fun c => sqdist c p) _ hlt 0 (0, 0)] at h1
  have hmem : sqdist (cs.getD k (0, 0)) p ∈ cs.map (fun c => sqdist c p) := by
    apply List.mem_map_of_mem
    rw [List.getD_eq_getElem cs (0, 0) hk]
    exact List.getElem_mem hk
  calc sqdist (cs.getD (assignPt cs p) (0, 0)) p
      = listMin (cs.map (fun c => sqdist c p)) := h1
    _ ≤ sqdist (cs.getD k (0, 0)) p := listMin_le (cs.map (fun c => sqdist c p)) hmem

/-- Among equidistant nearest centroids the assigned one has the lowest
index. -/
lemma assignPt_tie_lowest (cs : List Point) (p : Point) (h : cs ≠ []) (k : Nat)
    (hk : k < cs.length)
    (heq : sqdist (cs.getD k (0, 0)) p = sqdist (cs.getD (assignPt cs p) (0, 0)) p) :
    assignPt cs p ≤ k := by
  have hmapne : cs.map (fun c => sqdist c p) ≠ [] := by
    simpa [List.map_eq_nil_iff] using h
  have hlt := argminIdx_lt_length (cs.map (fun c => sqdist c p)) hmapne
  rw [List.length_map] at hlt
  have h1 := getD_argminIdx (cs.map (fun c => sqdist c p)) hmapne
  rw [getD_map_of_lt cs (fun c => sqdist c p) _ hlt 0 (0, 0)] at h1
  apply argminIdx_le (cs.map (fun c => sqdist c p)) k (by simpa using hk)
  rw [getD_map_of_lt cs (fun c => sqdist c p) _ hk 0 (0, 0), heq]
  exact h1

/-- Zipping a mapped list with the original pairs each element with its
image. -/
lemma zip_map_self {α β : Type} (f : α → β) :
    ∀ (l : List α), (l.map f).zip l = l.map (fun a => (f a, a))
  | [] => rfl
  | a :: tl => by simp [zip_map_self f tl]

/-- The assignment step can only lower the distortion against fixed
centroids: recomputing the labels by nearest centroid beats any in-range
labelling. -/
lemma distortion_labelsOf_le (ps cs : List Point) (labels : List Nat) (hne : cs ≠ [])
    (hlen : labels.length = ps.length) (hin : ∀ x ∈ labels, x < cs.length) :
    distortion ps (labelsOf cs ps) cs ≤ distortion ps labels cs := by
  rw [labelsOf_eq cs ps hne]
  unfold distortion
  rw [zip_map_self (fun p => assignPt cs p) ps, List.map_map]
  have hps : ps = (labels.zip ps).map Prod.snd :=
    (List.map_snd_zip labels ps (le_of_eq hlen.symm)).symm
  calc ((ps.map (fun p => sqdist p (cs.getD (assignPt cs p) (0, 0))))).sum
      = ((labels.zip ps).map
          (fun lp => sqdist lp.2 (cs.getD (assignPt cs lp.2) (0, 0)))).sum := by
        conv_lhs => rw [hps]
        rw [List.map_map]
        rfl
    _ ≤ ((labels.zip ps).map (fun lp => sqdist lp.2 (cs.getD lp.1 (0, 0)))).sum := by
        apply List.sum_le_sum
        intro lp hlp
        have hk : lp.1 < cs.length := hin lp.1 (List.of_mem_zip hlp).1
        have := assignPt_min cs lp.2 hne lp.1 hk
        rw [sqdist_comm (cs.getD (assignPt cs lp.2) (0, 0)) lp.2,
          sqdist_comm (cs.getD lp.1 (0, 0)) lp.2] at this
        exact this

/-- The update step can only lower the distortion against fixed labels: each
cluster's new centroid is the mean of its members, which minimizes that
cluster's sum of squared distances. -/
lemma distortion_update_le (ps : List Point) (labels : List Nat) (csOld csNew : List Point)
    (hupd : newCentroidsOpt ps labels (List.range csOld.length) = some csNew)
    (hin : ∀ x ∈ labels, x < csOld.length) :
    distortion ps labels csNew ≤ distortion ps labels csOld := by
  have hlen : csNew.length = csOld.length := by
    simpa using newCentroidsOpt_length ps labels (List.range csOld.length) csNew hupd
  rw [distortion_partition ps labels csNew (by rw [hlen]; exact hin),
    distortion_partition ps labels csOld hin, hlen]
  apply Finset.sum_le_sum
  intro j hj
  have hj2 : j < csOld.length := Finset.mem_range.mp hj
  have hmean := newCentroidsOpt_getD ps labels (List.range csOld.length) csNew hupd j
    (by simpa using hj2)
  rw [range_getD hj2] at hmean
  exact meanOpt_min (membersOf ps labels j) (csNew.getD j (0, 0)) hmean (csOld.getD j (0, 0))

/-- Once a defined post-update state repeats its labels, the state is a fixed
point: every later trace state is identical. -/
lemma loopTrace_stable (ps cs0 : List Point) (h0 : cs0 ≠ []) (t : Nat)
    (l l2 : List Nat) (c c2 : List Point)
    (hA : loopTrace ps cs0 (t + 1) = some (l, c))
    (hB : loopTrace ps cs0 (t + 2) = some (l2, c2))
    (hstab : l2 = l) : ∀ k, t + 1 ≤ k → loopTrace ps cs0 k = some (l, c) := by
  obtain ⟨-, -, hclen, hupd⟩ := loopTrace_some_shape ps cs0 h0 t l c hA
  have hBbody : loopBody ps c = some (l2, c2) := by
    have := hB
    rw [loopTrace_succ, hA] at this
    simpa using this
  obtain ⟨hl2, hupd2⟩ := (loopBody_some_iff ps c l2 c2).mp hBbody
  have hc2 : c2 = c := by
    rw [← hl2, hstab, hclen] at hupd2
    rw [hupd] at hupd2
    exact (Option.some.inj hupd2).symm
  have hbody : loopBody ps c = some (l, c) := by
    rw [hBbody, hstab, hc2]
  intro k
  induction k with
  | zero => intro hk; omega
  | succ k ihk =>
    intro hk
    rcases Nat.lt_or_ge (k + 1) (t + 2) with hlt | hge
    · have hkt : k + 1 = t + 1 := by omega
      rw [hkt]
      exact hA
    · have hk2 : t + 1 ≤ k := by omega
      rw [loopTrace_succ, ihk hk2]
      simpa using hbody

/-- Concrete evaluation of the specification scenario: after one iteration
the labels are `[0,0,1,1]` and the centroids are the two pair means. -/
lemma scen_trace1 :
    loopTrace scenPts scenCs 1 = some ([0, 0, 1, 1], [(0, 1/2), (10, 1/2)]) := by
  norm_num [loopTrace, loopBody, scenPts, scenCs, newCentroidsOpt, meanOpt, membersOf,
    sqdist, argminIdx, listMin, List.range_succ]

/-- Concrete evaluation of the scenario: the second iteration reproduces the
same labels and centroids. -/
lemma scen_trace2 :
    loopTrace scenPts scenCs 2 = some ([0, 0, 1, 1], [(0, 1/2), (10, 1/2)]) := by
  rw [show (2 : Nat) = 1 + 1 from rfl, loopTrace_succ, scen_trace1]
  norm_num [loopBody, scenPts, newCentroidsOpt, meanOpt, membersOf, sqdist, argminIdx,
    listMin, List.range_succ]

/-- C1 counterexample: on the scenario input the assignment stabilizes
between iterations 1 and 2, yet with an iteration budget of 10 the loop
performs 10 body executions, not 2: the code has no convergence-based early
stop. -/
theorem loop_no_early_stop_cex :
    (loopTrace scenPts scenCs 1).map Prod.fst = (loopTrace scenPts scenCs 2).map Prod.fst
      ∧ iterationsPerformed scenPts scenCs 10 = 10 ∧ (10 : Nat) ≠ 2 := by
  refine ⟨?_, iterationsPerformed_eq scenPts scenCs 10, by decide⟩
  rw [scen_trace1, scen_trace2]

/-- C1 amended: the loop performs exactly its iteration budget of body
executions, with no convergence check or converged flag; once the labels
repeat between consecutive defined states the state is a fixed point, so
every later iteration recomputes the same assignment and centroids and the
final output equals what early stopping would have returned. -/
theorem loop_runs_budget_and_stabilizes (ps cs0 : List Point) (h0 : cs0 ≠ [])
    (n t : Nat) (l l2 : List Nat) (c c2 : List Point)
    (hA : loopTrace ps cs0 (t + 1) = some (l, c))
    (hB : loopTrace ps cs0 (t + 2) = some (l2, c2)) (hstab : l2 = l) :
    iterationsPerformed ps cs0 n = n ∧
      ∀ k, t + 1 ≤ k → loopTrace ps cs0 k = some (l, c) :=
  ⟨iterationsPerformed_eq ps cs0 n, loopTrace_stable ps cs0 h0 t l l2 c c2 hA hB hstab⟩

/-- C1 witness: the amended statement instantiated on the scenario input. -/
theorem loop_runs_budget_witness :
    (scenCs ≠ []) ∧
      loopTrace scenPts scenCs 1 = some ([0, 0, 1, 1], [(0, 1/2), (10, 1/2)]) ∧
      loopTrace scenPts scenCs 2 = some ([0, 0, 1, 1], [(0, 1/2), (10, 1/2)]) ∧
      (iterationsPerformed scenPts scenCs 10 = 10 ∧
        ∀ k, 1 ≤ k → loopTrace scenPts scenCs k = some ([0, 0, 1, 1], [(0, 1/2), (10, 1/2)])) :=
  ⟨by simp [scenCs], scen_trace1, scen_trace2,
    loop_runs_budget_and_stabilizes scenPts scenCs (by simp [scenCs]) 10 0
      [0, 0, 1, 1] [0, 0, 1, 1] [(0, 1/2), (10, 1/2)] [(0, 1/2), (10, 1/2)]
      scen_trace1 scen_trace2 rfl⟩

/-- C2: at a state where no point is assigned to centroid 1 the code does not
freeze centroid 1 at its previous location: both points label 0, the member
list of cluster 1 is empty, and the loop body produces the undefined (NaN)
value of the empty-slice mean, modelled as `none`. -/
theorem empty_cluster_not_frozen_eval :
    labelsOf [((1 : ℚ), (0 : ℚ)), (5, 0)] [((0 : ℚ), (0 : ℚ)), (2, 0)] = [0, 0]
      ∧ membersOf [((0 : ℚ), (0 : ℚ)), (2, 0)] [0, 0] 1 = []
      ∧ loopBody [((0 : ℚ), (0 : ℚ)), (2, 0)] [((1 : ℚ), (0 : ℚ)), (5, 0)] = none := by
  refine ⟨?_, rfl, ?_⟩
  · norm_num [labelsOf, argminAxis0, sqDistances, distanceRow, matCol, sqdist, argminIdx,
      listMin, List.range_succ]
  · norm_num [loopBody, newCentroidsOpt, meanOpt, membersOf, sqdist, argminIdx, listMin,
      List.range_succ]

/-- C3: a configuration that is valid in the sense of the specification
(M = 2 points, K = 2 with 1 ≤ K ≤ M, N = 1 ≥ 1, matching dimensionality,
finite coordinates) on which the run nevertheless produces an undefined (NaN)
value: both points are nearest to centroid 0, cluster 1 becomes empty, and
the run result is the undefined value, modelled as `none`. -/
theorem valid_run_fault_eval :
    1 ≤ ([((0 : ℚ), (0 : ℚ)), (0, 2)] : List Point).length
      ∧ ([((0 : ℚ), (1 : ℚ)), (7, 7)] : List Point).length
          ≤ ([((0 : ℚ), (0 : ℚ)), (0, 2)] : List Point).length
      ∧ 1 ≤ (1 : Nat)
      ∧ runLoop [((0 : ℚ), (0 : ℚ)), (0, 2)] [((0 : ℚ), (1 : ℚ)), (7, 7)] 1 = none := by
  refine ⟨by simp, by simp, le_refl 1, ?_⟩
  rw [runLoop_eq_loopTrace]
  norm_num [loopTrace, loopBody, newCentroidsOpt, meanOpt, membersOf, sqdist, argminIdx,
    listMin, List.range_succ]

/-- C4: in every assignment step each point is assigned to a centroid at
minimal distance, and among equidistant nearest centroids the assigned one
has the lowest index, so the assignment step is deterministic. -/
theorem assignment_tie_break_lowest_index (cs ps : List Point) (hne : cs ≠ [])
    (i : Nat) (hi : i < ps.length) :
    (∀ k, k < cs.length →
        sqdist (cs.getD ((labelsOf cs ps).getD i 0) (0, 0)) (ps.getD i (0, 0))
          ≤ sqdist (cs.getD k (0, 0)) (ps.getD i (0, 0))) ∧
      ∀ k, k < cs.length →
        sqdist (cs.getD k (0, 0)) (ps.getD i (0, 0))
            = sqdist (cs.getD ((labelsOf cs ps).getD i 0) (0, 0)) (ps.getD i (0, 0)) →
          (labelsOf cs ps).getD i 0 ≤ k := by
  have hl : (labelsOf cs ps).getD i 0 = assignPt cs (ps.getD i (0, 0)) := by
    rw [labelsOf_eq cs ps hne]
    exact getD_map_of_lt ps (fun p => assignPt cs p) i hi 0 (0, 0)
  rw [hl]
  exact ⟨fun k hk => assignPt_min cs (ps.getD i (0, 0)) hne k hk,
    fun k hk heq => assignPt_tie_lowest cs (ps.getD i (0, 0)) hne k hk heq⟩

/-- C4 witness: a point equidistant from two centroids is assigned to the
one with the lower index. -/
theorem assignment_tie_break_witness :
    (([((1 : ℚ), (0 : ℚ)), (-1, 0)] : List Point) ≠ []) ∧
      0 < ([((0 : ℚ), (0 : ℚ))] : List Point).length ∧
      ((∀ k, k < ([((1 : ℚ), (0 : ℚ)), (-1, 0)] : List Point).length →
          sqdist (([((1 : ℚ), (0 : ℚ)), (-1, 0)] : List Point).getD
              ((labelsOf [((1 : ℚ), (0 : ℚ)), (-1, 0)] [((0 : ℚ), (0 : ℚ))]).getD 0 0) (0, 0))
              (([((0 : ℚ), (0 : ℚ))] : List Point).getD 0 (0, 0))
            ≤ sqdist (([((1 : ℚ), (0 : ℚ)), (-1, 0)] : List Point).getD k (0, 0))
              (([((0 : ℚ), (0 : ℚ))] : List Point).getD 0 (0, 0))) ∧
        ∀ k, k < ([((1 : ℚ), (0 : ℚ)), (-1, 0)] : List Point).length →
          sqdist (([((1 : ℚ), (0 : ℚ)), (-1, 0)] : List Point).getD k (0, 0))
              (([((0 : ℚ), (0 : ℚ))] : List Point).getD 0 (0, 0))
              = sqdist (([((1 : ℚ), (0 : ℚ)), (-1, 0)] : List Point).getD
                ((labelsOf [((1 : ℚ), (0 : ℚ)), (-1, 0)] [((0 : ℚ), (0 : ℚ))]).getD 0 0) (0, 0))
                (([((0 : ℚ), (0 : ℚ))] : List Point).getD 0 (0, 0)) →
            (labelsOf [((1 : ℚ), (0 : ℚ)), (-1, 0)] [((0 : ℚ), (0 : ℚ))]).getD 0 0 ≤ k) :=
  ⟨by simp, by simp,
    assignment_tie_break_lowest_index [((1 : ℚ), (0 : ℚ)), (-1, 0)] [((0 : ℚ), (0 : ℚ))]
      (by simp) 0 (by simp)⟩

/-- C5 counterexample: with K = 2 centroids and M = 1 point (so K > M) the
cell-21 setup still succeeds: the code performs no validation and raises no
configuration error. -/
theorem setup_accepts_invalid_config :
    notebookSetup [((0 : ℚ), (0 : ℚ))] [((1 : ℚ), (0 : ℚ)), (2, 0)] 20
        = Except.ok ⟨[(0, 0)], [(1, 0), (2, 0)], 20⟩
      ∧ ([((0 : ℚ), (0 : ℚ))] : List Point).length
          < ([((1 : ℚ), (0 : ℚ)), (2, 0)] : List Point).length :=
  ⟨rfl, by simp⟩

/-- C5 amended: construction never fails — the notebook performs no
validation of K, N or dimensionality and defines no configuration error;
every configuration is accepted and the loop simply begins on it. -/
theorem setup_never_fails (ps cs : List Point) (n : Nat) :
    notebookSetup ps cs n = Except.ok ⟨ps, cs, n⟩ := rfl

/-- C6: the run always terminates: it is the endpoint of the finite trace,
and the number of iterations performed never exceeds the budget. -/
theorem run_terminates_within_budget (ps cs0 : List Point) (n : Nat) :
    runLoop ps cs0 n = loopTrace ps cs0 n ∧ iterationsPerformed ps cs0 n ≤ n :=
  ⟨runLoop_eq_loopTrace ps cs0 n, le_of_eq (iterationsPerformed_eq ps cs0 n)⟩

/-- C7: the run is deterministic: identical point sets, identical initial
centroids and identical iteration budgets (the distance function is fixed to
the Euclidean one the notebook uses) give identical traces at every iteration
and identical final results. -/
theorem run_deterministic (ps1 ps2 cs1 cs2 : List Point) (n1 n2 : Nat)
    (hp : ps1 = ps2) (hc : cs1 = cs2) (hn : n1 = n2) :
    (∀ t, loopTrace ps1 cs1 t = loopTrace ps2 cs2 t) ∧
      runLoop ps1 cs1 n1 = runLoop ps2 cs2 n2 := by
  subst hp
  subst hc
  subst hn
  exact ⟨fun t => rfl, rfl⟩

/-- C7 witness: determinism instantiated on the scenario input. -/
theorem run_deterministic_witness :
    scenPts = scenPts ∧ scenCs = scenCs ∧ (3 : Nat) = 3 ∧
      ((∀ t, loopTrace scenPts scenCs t = loopTrace scenPts scenCs t) ∧
        runLoop scenPts scenCs 3 = runLoop scenPts scenCs 3) :=
  ⟨rfl, rfl, rfl, run_deterministic scenPts scenPts scenCs scenCs 3 3 rfl rfl rfl⟩

/-- C8: along any run in which consecutive post-update states are defined
(no cluster has gone empty), the distortion after an iteration's update step
is at most the distortion after the previous iteration's update step. -/
theorem distortion_nonincreasing (ps cs0 : List Point) (h0 : cs0 ≠ []) (t : Nat)
    (l l2 : List Nat) (c c2 : List Point)
    (hA : loopTrace ps cs0 (t + 1) = some (l, c))
    (hB : loopTrace ps cs0 (t + 2) = some (l2, c2)) :
    distortion ps l2 c2 ≤ distortion ps l c := by
  obtain ⟨hllen, hlin, hclen, -⟩ := loopTrace_some_shape ps cs0 h0 t l c hA
  obtain ⟨hl2len, hl2in, hc2len, -⟩ := loopTrace_some_shape ps cs0 h0 (t + 1) l2 c2 hB
  have hcne : c ≠ [] := by
    intro hnil
    rw [hnil] at hclen
    exact h0 (List.length_eq_zero.mp hclen.symm)
  have hBbody : loopBody ps c = some (l2, c2) := by
    have hB2 := hB
    rw [loopTrace_succ, hA] at hB2
    simpa using hB2
  obtain ⟨hl2, hupd2⟩ := (loopBody_some_iff ps c l2 c2).mp hBbody
  have step1 : distortion ps l2 c2 ≤ distortion ps l2 c := by
    apply distortion_update_le ps l2 c c2
    · rw [← hl2] at hupd2
      exact hupd2
    · intro x hx
      rw [hclen]
      exact hl2in x hx
  have step2 : distortion ps l2 c ≤ distortion ps l c := by
    rw [hl2]
    apply distortion_labelsOf_le ps c l hcne hllen
    intro x hx
    rw [hclen]
    exact hlin x hx
  exact le_trans step1 step2

/-- C8 witness: the distortion inequality instantiated between iterations 1
and 2 of the scenario run. -/
theorem distortion_nonincreasing_witness :
    (scenCs ≠ []) ∧
      loopTrace scenPts scenCs 1 = some ([0, 0, 1, 1], [(0, 1/2), (10, 1/2)]) ∧
      loopTrace scenPts scenCs 2 = some ([0, 0, 1, 1], [(0, 1/2), (10, 1/2)]) ∧
      distortion scenPts [0, 0, 1, 1] [(0, 1/2), (10, 1/2)]
        ≤ distortion scenPts [0, 0, 1, 1] [(0, 1/2), (10, 1/2)] :=
  ⟨by simp [scenCs], scen_trace1, scen_trace2,
    distortion_nonincreasing scenPts scenCs (by simp [scenCs]) 0
      [0, 0, 1, 1] [0, 0, 1, 1] [(0, 1/2), (10, 1/2)] [(0, 1/2), (10, 1/2)]
      scen_trace1 scen_trace2⟩

/-- C9: after the first assignment step every state the loop reaches has a
total assignment: one label per point, every label an in-range centroid
index, and the number of centroids still exactly the initial K. -/
theorem assignment_total_in_range (ps cs0 : List Point) (h0 : cs0 ≠ []) (t : Nat)
    (l : List Nat) (c : List Point) (h : loopTrace ps cs0 (t + 1) = some (l, c)) :
    l.length = ps.length ∧ (∀ x ∈ l, x < cs0.length) ∧ c.length = cs0.length := by
  obtain ⟨h1, h2, h3, -⟩ := loopTrace_some_shape ps cs0 h0 t l c h
  exact ⟨h1, h2, h3⟩

/-- C9 witness: the invariant instantiated after iteration 1 of the scenario
run. -/
theorem assignment_total_witness :
    (scenCs ≠ []) ∧
      loopTrace scenPts scenCs 1 = some ([0, 0, 1, 1], [(0, 1/2), (10, 1/2)]) ∧
      (([0, 0, 1, 1] : List Nat).length = scenPts.length ∧
        (∀ x ∈ ([0, 0, 1, 1] : List Nat), x < scenCs.length) ∧
        ([((0 : ℚ), (1 : ℚ)/2), (10, 1/2)] : List Point).length = scenCs.length) :=
  ⟨by simp [scenCs], scen_trace1,
    assignment_total_in_range scenPts scenCs (by simp [scenCs]) 0
      [0, 0, 1, 1] [(0, 1/2), (10, 1/2)] scen_trace1⟩

/-- C10: the loop body of cell 21 computes exactly the cell-13/15 labels and
the cell-18 centroid list: the inline formulation and the step-by-step cells
are equal functions of the centroids and the points. -/
theorem loop_body_eq_stepwise_cells (ps cs : List Point) :
    loopBody ps cs = Option.map (fun cs2 => (labelsOf cs ps, cs2))
      (newCentroidsOpt ps (labelsOf cs ps) (List.range cs.length)) :=
  loopBody_eq_cells ps cs
